import Mathlib

/-!
Verification of the autonomous-agent orchestration core
(`agent.py` and the CLI entry point `aidd-c.py`).

The embedding models:
* `async_iter_with_timeout` — the idle-timeout stream guard, over a timed
  source model where each item carries the delay (in abstract time units)
  between the previous request and its arrival;
* `has_existing_codebase` — the directory probe, over the list of entry names;
* the session-type selection performed at startup of `run_autonomous_agent`;
* `run_agent_session` — the per-session outcome classifier;
* the main `while True` loop of `run_autonomous_agent`, driven by a scripted
  list of session outcomes.
-/

/-- How a timed event source terminates after its last item:
it either signals normal exhaustion after `delay` time units,
stalls forever producing nothing, or raises its own failure with
message `msg` after `delay` time units. -/
inductive SourceEnd where
  | normal (delay : Nat)
  | stallForever
  | raisesError (delay : Nat) (msg : String)
  deriving DecidableEq, Repr

/-- A timed event source: a finite list of items, each paired with the
delay between the request for it and its arrival, followed by a
termination behaviour.  The per-item delay restarts at each request,
matching the per-item `asyncio.wait_for` in the code. -/
structure TimedSource (α : Type) where
  events : List (Nat × α)
  ending : SourceEnd
  deriving DecidableEq, Repr

/-- Observable behaviour of consuming a (guarded) stream to the end:
the items delivered, then either normal end, an `IdleTimeoutError`
reporting `reportedTimeout`, divergence (the consumer waits forever),
or a propagated source failure. -/
inductive StreamRun (α : Type) where
  | ended (items : List α)
  | idleTimeout (items : List α) (reportedTimeout : Nat)
  | diverges (items : List α)
  | sourceError (items : List α) (msg : String)
  deriving DecidableEq, Repr

/-- The timed branch of `async_iter_with_timeout` (agent.py:53-68):
repeatedly `await asyncio.wait_for(aiter.__anext__(), timeout=T)`.
An event arriving after `d` time units is delivered iff `d < T`;
otherwise the timer fires first and `IdleTimeoutError` is raised
carrying the configured `T`.  `acc` holds already-yielded items in
reverse. -/
def guardTimed (T : Nat) (acc : List α) : List (Nat × α) → SourceEnd → StreamRun α
  | [], .normal d =>
      if d < T then .ended acc.reverse else .idleTimeout acc.reverse T
  | [], .stallForever => .idleTimeout acc.reverse T
  | [], .raisesError d msg =>
      if d < T then .sourceError acc.reverse msg else .idleTimeout acc.reverse T
  | (d, a) :: rest, ending =>
      if d < T then guardTimed T (a :: acc) rest ending
      else .idleTimeout acc.reverse T

/-- `async_iter_with_timeout` (agent.py:30-68).  With `timeout = none` the
code is a plain `async for`/`yield` pass-through, so the consumer sees
exactly the source's items and the source's own termination (including
waiting forever on a stalled source).  With `timeout = some T` each item
is awaited under `asyncio.wait_for` with deadline `T`. -/
def async_iter_with_timeout (timeout : Option Nat) (src : TimedSource α) : StreamRun α :=
  match timeout with
  | none =>
      match src.ending with
      | .normal _ => .ended (src.events.map Prod.snd)
      | .stallForever => .diverges (src.events.map Prod.snd)
      | .raisesError _ msg => .sourceError (src.events.map Prod.snd) msg
  | some T => guardTimed T [] src.events src.ending

/-- Spec-side definition for the refinement claim: the behaviour of
consuming the raw, unguarded source directly ("identical items,
identical termination"). -/
def rawSourceRun (src : TimedSource α) : StreamRun α :=
  match src.ending with
  | .normal _ => .ended (src.events.map Prod.snd)
  | .stallForever => .diverges (src.events.map Prod.snd)
  | .raisesError _ msg => .sourceError (src.events.map Prod.snd) msg

/-- The CLI normalization in `aidd-c.py` main (line 168):
`idle_timeout=args.idle_timeout if args.idle_timeout > 0 else None`. -/
def effective_idle_timeout (idle_timeout : Int) : Option Nat :=
  if idle_timeout > 0 then some idle_timeout.toNat else none

/-- The fixed ignored set of `has_existing_codebase` (agent.py:82-92). -/
def ignored_patterns : List String :=
  [".auto", ".autok", ".automaker", ".git", ".DS_Store",
   "__pycache__", "node_modules", ".vscode", ".idea"]

/-- Python's `item.name.startswith('.')`: the first character is `'.'`. -/
def starts_with_dot (s : String) : Bool :=
  match s.data with
  | [] => false
  | c :: _ => c == '.'

/-- The `for item in project_dir.iterdir()` loop of `has_existing_codebase`
(agent.py:95-107), over the list of entry names. -/
def scan_for_existing_code : List String → Bool
  | [] => false
  | item :: rest =>
      if starts_with_dot item && item != ".git" then scan_for_existing_code rest
      else if item ∈ ignored_patterns then scan_for_existing_code rest
      else true

/-- `has_existing_codebase` (agent.py:71-107).  `none` models a project
directory that does not exist; `some entries` an existing directory with
the given entry names. -/
def has_existing_codebase : Option (List String) → Bool
  | none => false
  | some entries => scan_for_existing_code entries

/-- The three session phases of the loop. -/
inductive SessionType where
  | initializer
  | onboarding
  | coding
  deriving DecidableEq, Repr

/-- The startup session-type decision of `run_autonomous_agent`
(agent.py:245-276): `is_first_run = not tests_file.exists()`, then
onboarding / initializer / coding by the two booleans. -/
def determine_session_type (tests_file_exists : Bool) (has_existing_code : Bool) : SessionType :=
  let is_first_run := !tests_file_exists
  if is_first_run && has_existing_code then .onboarding
  else if is_first_run && !has_existing_code then .initializer
  else .coding

/-- Spec-side PhaseSelector table: (true, _) → Coding; (false, true) →
Onboarding; (false, false) → Initializer. -/
def phase_selector_table (hasPriorProgress hasExistingContent : Bool) : SessionType :=
  if hasPriorProgress then .coding
  else if hasExistingContent then .onboarding
  else .initializer

/-- Content blocks of a streamed message (the shapes inspected by
`run_agent_session`). -/
inductive Block where
  | textBlock (text : String)
  | toolUseBlock (name input : String)
  | toolResultBlock (content : String) (is_error : Bool)
  deriving DecidableEq, Repr

/-- Streamed messages: assistant messages, user (tool-result) messages,
or anything else (ignored by the accumulator). -/
inductive Msg where
  | assistantMessage (content : List Block)
  | userMessage (content : List Block)
  | otherMessage
  deriving DecidableEq, Repr

/-- One step of the text accumulation in `run_agent_session`
(agent.py:151-153): `response_text += block.text` for TextBlocks only. -/
def accumulate_block (acc : String) : Block → String
  | .textBlock t => acc ++ t
  | _ => acc

/-- Per-message accumulation (agent.py:147-181): only AssistantMessage
content contributes text; UserMessage / other messages are display-only. -/
def accumulate_msg (acc : String) : Msg → String
  | .assistantMessage content => content.foldl accumulate_block acc
  | _ => acc

/-- `response_text` after the `async for` loop of `run_agent_session`
consumed `msgs` (agent.py:142-143). -/
def response_text_of (msgs : List Msg) : String :=
  msgs.foldl accumulate_msg ""

/-- Spec-side description of the accumulated text: the concatenation of
all text fragments of all assistant messages, in order. -/
def text_fragments : Msg → List String
  | .assistantMessage content =>
      content.filterMap fun b =>
        match b with
        | .textBlock t => some t
        | _ => none
  | _ => []

/-- Spec-side accumulated text of a message list. -/
def accumulated_text (msgs : List Msg) : String :=
  String.join (msgs.map text_fragments).flatten

/-- Result of `await client.query(message)` (agent.py:138): succeeds or
raises a failure with a message. -/
inductive SubmitResult where
  | ok
  | failed (msg : String)
  deriving DecidableEq, Repr

/-- The message of the `IdleTimeoutError` raised by the guard
(agent.py:66-68); it carries the configured timeout value. -/
def idle_timeout_message (T : Nat) : String :=
  "Session idle timeout: no output received for " ++ toString T ++ " seconds"

/-- `run_agent_session` (agent.py:110-194): submit the prompt, consume
the guarded stream, and classify.  `none` models an invocation that
never returns (the guarded stream diverges, which requires the timeout
to be disabled). -/
def run_agent_session (submit : SubmitResult) (idle_timeout : Option Nat)
    (src : TimedSource Msg) : Option (String × String) :=
  match submit with
  | .failed msg => some ("error", msg)
  | .ok =>
      match async_iter_with_timeout idle_timeout src with
      | .ended msgs => some ("continue", response_text_of msgs)
      | .idleTimeout _ T => some ("idle_timeout", idle_timeout_message T)
      | .sourceError _ msg => some ("error", msg)
      | .diverges _ => none

/-- The status returned by one session, as consumed by the loop
(the strings "continue" / "idle_timeout" / "error" in the code). -/
inductive Status where
  | cont
  | idleTimeout
  | error
  deriving DecidableEq, Repr

/-- The loop configuration: `max_iterations` and `quit_on_abort`
(agent.py:201-203).  `some 0` is Python's falsy integer 0 and disables
the check exactly like `none`. -/
structure LoopConfig where
  max_iterations : Option Nat
  quit_on_abort : Option Nat
  deriving DecidableEq, Repr

/-- Why the loop stopped.  `scriptEnded` is a model artifact: the
scripted outcome list ran out while the real loop would have kept
iterating; it certifies that neither termination condition fired. -/
inductive StopReason where
  | maxIterations
  | failureThreshold
  | scriptEnded
  deriving DecidableEq, Repr

/-- Observable result of running the loop on a script of outcomes:
final `iteration` and `consecutive_failures`, the stop reason, the
value of `consecutive_failures` immediately after each evaluated
outcome, and the phase whose prompt/model each executed session used. -/
structure RunResult where
  iteration : Nat
  consecutive_failures : Nat
  reason : StopReason
  failures_trace : List Nat
  phases : List SessionType
  deriving DecidableEq, Repr

/-- The session-type rewrite at prompt-choice time (agent.py:298-308):
initializer and onboarding switch to coding; coding stays coding. -/
def next_session_type : SessionType → SessionType
  | .initializer => .coding
  | .onboarding => .coding
  | .coding => .coding

/-- Python's `if max_iterations and iteration > max_iterations`
(agent.py:288): `None` and `0` are both falsy. -/
def max_iterations_reached (cfg : LoopConfig) (iteration : Nat) : Bool :=
  match cfg.max_iterations with
  | none => false
  | some m => !(m == 0) && decide (m < iteration)

/-- Python's `if quit_on_abort and consecutive_failures >= quit_on_abort`
(agent.py:334 and 353): `None` and `0` are both falsy. -/
def failure_threshold_reached (cfg : LoopConfig) (consecutive_failures : Nat) : Bool :=
  match cfg.quit_on_abort with
  | none => false
  | some q => !(q == 0) && decide (q ≤ consecutive_failures)

/-- The `while True` loop of `run_autonomous_agent` (agent.py:284-368),
driven by a script of session outcomes (one consumed per executed
session).  Top of cycle: increment `iteration`, check max-iterations.
Then run the session with the current phase (recorded in `phases`),
rewriting the phase to coding for the next cycle.  Continue resets
`consecutive_failures` to 0; idle_timeout and error increment it and
check the quit threshold. -/
def run_loop (cfg : LoopConfig) (outcomes : List Status) (iteration : Nat)
    (consecutive_failures : Nat) (session_type : SessionType) : RunResult :=
  let iter' := iteration + 1
  if max_iterations_reached cfg iter' then
    { iteration := iter', consecutive_failures := consecutive_failures,
      reason := .maxIterations, failures_trace := [], phases := [] }
  else
    match outcomes with
    | [] =>
        { iteration := iter', consecutive_failures := consecutive_failures,
          reason := .scriptEnded, failures_trace := [], phases := [] }
    | status :: rest =>
        let session_type' := next_session_type session_type
        match status with
        | .cont =>
            let r := run_loop cfg rest iter' 0 session_type'
            { r with failures_trace := 0 :: r.failures_trace,
                     phases := session_type :: r.phases }
        | .idleTimeout =>
            let cf' := consecutive_failures + 1
            if failure_threshold_reached cfg cf' then
              { iteration := iter', consecutive_failures := cf',
                reason := .failureThreshold, failures_trace := [cf'],
                phases := [session_type] }
            else
              let r := run_loop cfg rest iter' cf' session_type'
              { r with failures_trace := cf' :: r.failures_trace,
                       phases := session_type :: r.phases }
        | .error =>
            let cf' := consecutive_failures + 1
            if failure_threshold_reached cfg cf' then
              { iteration := iter', consecutive_failures := cf',
                reason := .failureThreshold, failures_trace := [cf'],
                phases := [session_type] }
            else
              let r := run_loop cfg rest iter' cf' session_type'
              { r with failures_trace := cf' :: r.failures_trace,
                       phases := session_type :: r.phases }

/-- Spec-side counter rule: 0 after a Continue, previous value plus one
after an IdleTimeout or Error, starting from `c`. -/
def failures_scan : Nat → List Status → List Nat
  | _, [] => []
  | _, .cont :: rest => 0 :: failures_scan 0 rest
  | c, .idleTimeout :: rest => (c + 1) :: failures_scan (c + 1) rest
  | c, .error :: rest => (c + 1) :: failures_scan (c + 1) rest

-- Helper lemmas about the guard

theorem guardTimed_all_fast (T : Nat) (events : List (Nat × α)) (ending : SourceEnd)
    (hfast : ∀ p ∈ events, p.1 < T) (acc : List α) :
    guardTimed T acc events ending =
      match ending with
      | .normal d =>
          if d < T then .ended (acc.reverse ++ events.map Prod.snd)
          else .idleTimeout (acc.reverse ++ events.map Prod.snd) T
      | .stallForever => .idleTimeout (acc.reverse ++ events.map Prod.snd) T
      | .raisesError d msg =>
          if d < T then .sourceError (acc.reverse ++ events.map Prod.snd) msg
          else .idleTimeout (acc.reverse ++ events.map Prod.snd) T := by
  induction events generalizing acc with
  | nil =>
      cases ending with
      | normal d => simp [guardTimed]
      | stallForever => simp [guardTimed]
      | raisesError d msg => simp [guardTimed]
  | cons p rest ih =>
      obtain ⟨d, a⟩ := p
      have hd : d < T := hfast (d, a) (List.mem_cons_self _ _)
      have hrest : ∀ q ∈ rest, q.1 < T := fun q hq => hfast q (List.mem_cons_of_mem _ hq)
      cases ending with
      | normal e =>
          simp only [guardTimed, if_pos hd, ih hrest]
          by_cases he : e < T <;> simp [he]
      | stallForever =>
          simp only [guardTimed, if_pos hd, ih hrest]
          simp
      | raisesError e msg =>
          simp only [guardTimed, if_pos hd, ih hrest]
          by_cases he : e < T <;> simp [he]

theorem guardTimed_stall_mid (T : Nat) (front : List (Nat × α)) (d : Nat) (a : α)
    (rest : List (Nat × α)) (ending : SourceEnd)
    (hfast : ∀ p ∈ front, p.1 < T) (hslow : T ≤ d) (acc : List α) :
    guardTimed T acc (front ++ (d, a) :: rest) ending =
      .idleTimeout (acc.reverse ++ front.map Prod.snd) T := by
  induction front generalizing acc with
  | nil =>
      simp only [List.nil_append, guardTimed]
      rw [if_neg (by omega)]
      simp
  | cons p front' ih =>
      obtain ⟨e, b⟩ := p
      have he : e < T := hfast (e, b) (List.mem_cons_self _ _)
      have hfront' : ∀ q ∈ front', q.1 < T := fun q hq => hfast q (List.mem_cons_of_mem _ hq)
      simp only [List.cons_append, guardTimed, if_pos he]
      exact (ih hfront' (b :: acc)).trans (by simp)

theorem async_iter_none_no_idle (src : TimedSource α) (items : List α) (R : Nat) :
    async_iter_with_timeout none src ≠ .idleTimeout items R := by
  cases src with
  | mk events ending =>
      cases ending <;> simp [async_iter_with_timeout]

-- Helper lemmas about text accumulation

theorem foldl_string_append (l : List String) (a b : String) :
    List.foldl (fun r s => r ++ s) (a ++ b) l = a ++ List.foldl (fun r s => r ++ s) b l := by
  induction l generalizing b with
  | nil => rfl
  | cons s rest ih =>
      simp only [List.foldl]
      rw [String.append_assoc, ih]

theorem string_join_cons (s : String) (l : List String) :
    String.join (s :: l) = s ++ String.join l := by
  simp only [String.join, List.foldl]
  have h := foldl_string_append l s ""
  rw [String.append_empty] at h
  rw [String.empty_append, h]

theorem string_join_append (l₁ l₂ : List String) :
    String.join (l₁ ++ l₂) = String.join l₁ ++ String.join l₂ := by
  induction l₁ with
  | nil => simp [String.join, String.empty_append]
  | cons s rest ih =>
      rw [List.cons_append, string_join_cons, string_join_cons, ih, String.append_assoc]

theorem accumulate_block_foldl (content : List Block) (acc : String) :
    content.foldl accumulate_block acc
      = acc ++ String.join (text_fragments (.assistantMessage content)) := by
  induction content generalizing acc with
  | nil => simp [text_fragments, String.join, String.append_empty]
  | cons b rest ih =>
      cases b with
      | textBlock t =>
          simp only [List.foldl, accumulate_block, text_fragments, List.filterMap_cons]
          rw [ih, string_join_cons, String.append_assoc]
          rfl
      | toolUseBlock name input =>
          simp only [List.foldl, accumulate_block, text_fragments, List.filterMap_cons]
          exact ih acc
      | toolResultBlock content is_error =>
          simp only [List.foldl, accumulate_block, text_fragments, List.filterMap_cons]
          exact ih acc

theorem accumulate_msg_foldl (msgs : List Msg) (acc : String) :
    msgs.foldl accumulate_msg acc
      = acc ++ String.join (msgs.map text_fragments).flatten := by
  induction msgs generalizing acc with
  | nil => simp [String.join, String.append_empty]
  | cons m rest ih =>
      cases m with
      | assistantMessage content =>
          simp only [List.foldl, accumulate_msg, List.map_cons, List.flatten_cons]
          rw [accumulate_block_foldl, ih, string_join_append, String.append_assoc]
      | userMessage content =>
          simp only [List.foldl, accumulate_msg, List.map_cons, List.flatten_cons,
            text_fragments, List.nil_append]
          exact ih acc
      | otherMessage =>
          simp only [List.foldl, accumulate_msg, List.map_cons, List.flatten_cons,
            text_fragments, List.nil_append]
          exact ih acc

theorem response_text_eq_accumulated (msgs : List Msg) :
    response_text_of msgs = accumulated_text msgs := by
  rw [response_text_of, accumulated_text, accumulate_msg_foldl, String.empty_append]

-- Helper lemmas about the orchestration loop

theorem run_loop_nil (cfg : LoopConfig) (i c : Nat) (st : SessionType) :
    run_loop cfg [] i c st =
      if max_iterations_reached cfg (i + 1) then
        { iteration := i + 1, consecutive_failures := c,
          reason := .maxIterations, failures_trace := [], phases := [] }
      else
        { iteration := i + 1, consecutive_failures := c,
          reason := .scriptEnded, failures_trace := [], phases := [] } := by
  rw [run_loop]

theorem run_loop_cont (cfg : LoopConfig) (rest : List Status) (i c : Nat) (st : SessionType) :
    run_loop cfg (.cont :: rest) i c st =
      if max_iterations_reached cfg (i + 1) then
        { iteration := i + 1, consecutive_failures := c,
          reason := .maxIterations, failures_trace := [], phases := [] }
      else
        let r := run_loop cfg rest (i + 1) 0 (next_session_type st)
        { r with failures_trace := 0 :: r.failures_trace,
                 phases := st :: r.phases } := by
  rw [run_loop]

theorem run_loop_idle (cfg : LoopConfig) (rest : List Status) (i c : Nat) (st : SessionType) :
    run_loop cfg (.idleTimeout :: rest) i c st =
      if max_iterations_reached cfg (i + 1) then
        { iteration := i + 1, consecutive_failures := c,
          reason := .maxIterations, failures_trace := [], phases := [] }
      else if failure_threshold_reached cfg (c + 1) then
        { iteration := i + 1, consecutive_failures := c + 1,
          reason := .failureThreshold, failures_trace := [c + 1], phases := [st] }
      else
        let r := run_loop cfg rest (i + 1) (c + 1) (next_session_type st)
        { r with failures_trace := (c + 1) :: r.failures_trace,
                 phases := st :: r.phases } := by
  rw [run_loop]

theorem run_loop_error (cfg : LoopConfig) (rest : List Status) (i c : Nat) (st : SessionType) :
    run_loop cfg (.error :: rest) i c st =
      if max_iterations_reached cfg (i + 1) then
        { iteration := i + 1, consecutive_failures := c,
          reason := .maxIterations, failures_trace := [], phases := [] }
      else if failure_threshold_reached cfg (c + 1) then
        { iteration := i + 1, consecutive_failures := c + 1,
          reason := .failureThreshold, failures_trace := [c + 1], phases := [st] }
      else
        let r := run_loop cfg rest (i + 1) (c + 1) (next_session_type st)
        { r with failures_trace := (c + 1) :: r.failures_trace,
                 phases := st :: r.phases } := by
  rw [run_loop]

theorem next_session_type_coding (st : SessionType) :
    next_session_type st = .coding := by
  cases st <;> rfl

theorem run_loop_none_none_reason (outcomes : List Status) :
    ∀ i c st, (run_loop ⟨none, none⟩ outcomes i c st).reason = .scriptEnded := by
  induction outcomes with
  | nil => intro i c st; rfl
  | cons o rest ih =>
      intro i c st
      cases o with
      | cont =>
          rw [run_loop_cont]
          simpa [max_iterations_reached] using ih (i + 1) 0 (next_session_type st)
      | idleTimeout =>
          rw [run_loop_idle]
          simpa [max_iterations_reached, failure_threshold_reached] using
            ih (i + 1) (c + 1) (next_session_type st)
      | error =>
          rw [run_loop_error]
          simpa [max_iterations_reached, failure_threshold_reached] using
            ih (i + 1) (c + 1) (next_session_type st)

theorem run_loop_none_none_trace (outcomes : List Status) :
    ∀ i c st, (run_loop ⟨none, none⟩ outcomes i c st).failures_trace
      = failures_scan c outcomes := by
  induction outcomes with
  | nil => intro i c st; rfl
  | cons o rest ih =>
      intro i c st
      cases o with
      | cont =>
          rw [run_loop_cont]
          simpa [max_iterations_reached, failures_scan] using ih (i + 1) 0 (next_session_type st)
      | idleTimeout =>
          rw [run_loop_idle]
          simpa [max_iterations_reached, failure_threshold_reached, failures_scan] using
            ih (i + 1) (c + 1) (next_session_type st)
      | error =>
          rw [run_loop_error]
          simpa [max_iterations_reached, failure_threshold_reached, failures_scan] using
            ih (i + 1) (c + 1) (next_session_type st)

theorem run_loop_trace_follows_scan (cfg : LoopConfig) (outcomes : List Status) :
    ∀ i c st,
      (run_loop cfg outcomes i c st).failures_trace
        = (failures_scan c outcomes).take
            (run_loop cfg outcomes i c st).failures_trace.length := by
  induction outcomes with
  | nil =>
      intro i c st
      rw [run_loop_nil]
      split <;> simp
  | cons o rest ih =>
      intro i c st
      cases o with
      | cont =>
          rw [run_loop_cont]
          split
          · simp
          · simp only [failures_scan, List.length_cons, List.take_succ_cons]
            rw [← ih (i + 1) 0 (next_session_type st)]
      | idleTimeout =>
          rw [run_loop_idle]
          split
          · simp
          · split
            · simp [failures_scan]
            · simp only [failures_scan, List.length_cons, List.take_succ_cons]
              rw [← ih (i + 1) (c + 1) (next_session_type st)]
      | error =>
          rw [run_loop_error]
          split
          · simp
          · split
            · simp [failures_scan]
            · simp only [failures_scan, List.length_cons, List.take_succ_cons]
              rw [← ih (i + 1) (c + 1) (next_session_type st)]

theorem run_loop_no_threshold (mi : Option Nat) (outcomes : List Status) :
    ∀ i c st, (run_loop ⟨mi, none⟩ outcomes i c st).reason ≠ .failureThreshold := by
  induction outcomes with
  | nil =>
      intro i c st
      rw [run_loop_nil]
      split <;> simp
  | cons o rest ih =>
      intro i c st
      cases o with
      | cont =>
          rw [run_loop_cont]
          split
          · simp
          · exact ih (i + 1) 0 (next_session_type st)
      | idleTimeout =>
          rw [run_loop_idle]
          split
          · simp
          · simp only [failure_threshold_reached, Bool.false_eq_true, if_false]
            exact ih (i + 1) (c + 1) (next_session_type st)
      | error =>
          rw [run_loop_error]
          split
          · simp
          · simp only [failure_threshold_reached, Bool.false_eq_true, if_false]
            exact ih (i + 1) (c + 1) (next_session_type st)

theorem run_loop_no_max (q : Option Nat) (outcomes : List Status) :
    ∀ i c st, (run_loop ⟨none, q⟩ outcomes i c st).reason ≠ .maxIterations := by
  induction outcomes with
  | nil =>
      intro i c st
      rw [run_loop_nil]
      simp [max_iterations_reached]
  | cons o rest ih =>
      intro i c st
      cases o with
      | cont =>
          rw [run_loop_cont]
          simp only [max_iterations_reached, Bool.false_eq_true, if_false]
          exact ih (i + 1) 0 (next_session_type st)
      | idleTimeout =>
          rw [run_loop_idle]
          simp only [max_iterations_reached, Bool.false_eq_true, if_false]
          split
          · simp
          · exact ih (i + 1) (c + 1) (next_session_type st)
      | error =>
          rw [run_loop_error]
          simp only [max_iterations_reached, Bool.false_eq_true, if_false]
          split
          · simp
          · exact ih (i + 1) (c + 1) (next_session_type st)

theorem threshold_reached_iff (t c : Nat) :
    failure_threshold_reached ⟨none, some t⟩ (c + 1) = true ↔ (t ≠ 0 ∧ t ≤ c + 1) := by
  simp [failure_threshold_reached]

theorem run_loop_threshold_fires (t : Nat) (outcomes : List Status) :
    ∀ i c st, c < t → (∀ o ∈ outcomes.take (t - c), o ≠ .cont) →
      t - c ≤ outcomes.length →
      (run_loop ⟨none, some t⟩ outcomes i c st).reason = .failureThreshold ∧
      (run_loop ⟨none, some t⟩ outcomes i c st).phases.length = t - c := by
  induction outcomes with
  | nil =>
      intro i c st hc _ hlen
      simp at hlen
      omega
  | cons o rest ih =>
      intro i c st hc hfail hlen
      have hsplit : t - c = (t - (c + 1)) + 1 := by omega
      rw [hsplit, List.take_succ_cons] at hfail
      have ho : o ≠ .cont := hfail o (List.mem_cons_self o _)
      have hrest : ∀ o' ∈ rest.take (t - (c + 1)), o' ≠ .cont :=
        fun o' h => hfail o' (List.mem_cons_of_mem _ h)
      rw [List.length_cons] at hlen
      cases o with
      | cont => exact absurd rfl ho
      | idleTimeout =>
          rw [run_loop_idle]
          simp only [max_iterations_reached, Bool.false_eq_true, if_false]
          by_cases hfire : t ≤ c + 1
          · rw [if_pos ((threshold_reached_iff t c).mpr ⟨by omega, hfire⟩)]
            exact ⟨rfl, by simp; omega⟩
          · have hnot : ¬(failure_threshold_reached ⟨none, some t⟩ (c + 1) = true) := by
              rw [threshold_reached_iff]
              omega
            rw [if_neg hnot]
            have h := ih (i + 1) (c + 1) (next_session_type st) (by omega) hrest (by omega)
            refine ⟨h.1, ?_⟩
            simp only [List.length_cons, h.2]
            omega
      | error =>
          rw [run_loop_error]
          simp only [max_iterations_reached, Bool.false_eq_true, if_false]
          by_cases hfire : t ≤ c + 1
          · rw [if_pos ((threshold_reached_iff t c).mpr ⟨by omega, hfire⟩)]
            exact ⟨rfl, by simp; omega⟩
          · have hnot : ¬(failure_threshold_reached ⟨none, some t⟩ (c + 1) = true) := by
              rw [threshold_reached_iff]
              omega
            rw [if_neg hnot]
            have h := ih (i + 1) (c + 1) (next_session_type st) (by omega) hrest (by omega)
            refine ⟨h.1, ?_⟩
            simp only [List.length_cons, h.2]
            omega

theorem run_loop_threshold_iff (t : Nat) (outcomes : List Status) :
    ∀ i c st, c < t →
      ((run_loop ⟨none, some t⟩ outcomes i c st).reason = .failureThreshold ↔
        ∃ x ∈ failures_scan c outcomes, t ≤ x) := by
  induction outcomes with
  | nil =>
      intro i c st hc
      rw [run_loop_nil]
      simp [max_iterations_reached, failures_scan]
  | cons o rest ih =>
      intro i c st hc
      cases o with
      | cont =>
          rw [run_loop_cont]
          simp only [max_iterations_reached, Bool.false_eq_true, if_false]
          rw [ih (i + 1) 0 (next_session_type st) (by omega)]
          simp only [failures_scan, List.mem_cons]
          constructor
          · rintro ⟨x, hx, htx⟩
            exact ⟨x, Or.inr hx, htx⟩
          · rintro ⟨x, hx | hx, htx⟩
            · omega
            · exact ⟨x, hx, htx⟩
      | idleTimeout =>
          rw [run_loop_idle]
          simp only [max_iterations_reached, Bool.false_eq_true, if_false]
          by_cases hfire : t ≤ c + 1
          · rw [if_pos ((threshold_reached_iff t c).mpr ⟨by omega, hfire⟩)]
            simp only [failures_scan, List.mem_cons]
            constructor
            · intro _
              exact ⟨c + 1, Or.inl rfl, hfire⟩
            · intro _
              trivial
          · have hnot : ¬(failure_threshold_reached ⟨none, some t⟩ (c + 1) = true) := by
              rw [threshold_reached_iff]
              omega
            rw [if_neg hnot]
            rw [ih (i + 1) (c + 1) (next_session_type st) (by omega)]
            simp only [failures_scan, List.mem_cons]
            constructor
            · rintro ⟨x, hx, htx⟩
              exact ⟨x, Or.inr hx, htx⟩
            · rintro ⟨x, hx | hx, htx⟩
              · omega
              · exact ⟨x, hx, htx⟩
      | error =>
          rw [run_loop_error]
          simp only [max_iterations_reached, Bool.false_eq_true, if_false]
          by_cases hfire : t ≤ c + 1
          · rw [if_pos ((threshold_reached_iff t c).mpr ⟨by omega, hfire⟩)]
            simp only [failures_scan, List.mem_cons]
            constructor
            · intro _
              exact ⟨c + 1, Or.inl rfl, hfire⟩
            · intro _
              trivial
          · have hnot : ¬(failure_threshold_reached ⟨none, some t⟩ (c + 1) = true) := by
              rw [threshold_reached_iff]
              omega
            rw [if_neg hnot]
            rw [ih (i + 1) (c + 1) (next_session_type st) (by omega)]
            simp only [failures_scan, List.mem_cons]
            constructor
            · rintro ⟨x, hx, htx⟩
              exact ⟨x, Or.inr hx, htx⟩
            · rintro ⟨x, hx | hx, htx⟩
              · omega
              · exact ⟨x, hx, htx⟩

theorem run_loop_phases_coding (cfg : LoopConfig) (outcomes : List Status) :
    ∀ i c p, p ∈ (run_loop cfg outcomes i c .coding).phases → p = .coding := by
  induction outcomes with
  | nil =>
      intro i c p hp
      rw [run_loop_nil] at hp
      split at hp <;> simp at hp
  | cons o rest ih =>
      intro i c p hp
      cases o with
      | cont =>
          rw [run_loop_cont] at hp
          split at hp
          · simp at hp
          · simp only [next_session_type, List.mem_cons] at hp
            rcases hp with h | h
            · exact h
            · exact ih (i + 1) 0 p h
      | idleTimeout =>
          rw [run_loop_idle] at hp
          split at hp
          · simp at hp
          · split at hp
            · simp at hp
              exact hp
            · simp only [next_session_type, List.mem_cons] at hp
              rcases hp with h | h
              · exact h
              · exact ih (i + 1) (c + 1) p h
      | error =>
          rw [run_loop_error] at hp
          split at hp
          · simp at hp
          · split at hp
            · simp at hp
              exact hp
            · simp only [next_session_type, List.mem_cons] at hp
              rcases hp with h | h
              · exact h
              · exact ih (i + 1) (c + 1) p h

theorem run_loop_phases_tail (cfg : LoopConfig) (outcomes : List Status)
    (i c : Nat) (st : SessionType) :
    ∀ p ∈ (run_loop cfg outcomes i c st).phases.tail, p = .coding := by
  intro p hp
  cases outcomes with
  | nil =>
      rw [run_loop_nil] at hp
      split at hp <;> simp at hp
  | cons o rest =>
      cases o with
      | cont =>
          rw [run_loop_cont] at hp
          split at hp
          · simp at hp
          · simp only [next_session_type_coding, List.tail_cons] at hp
            exact run_loop_phases_coding cfg rest (i + 1) 0 p hp
      | idleTimeout =>
          rw [run_loop_idle] at hp
          split at hp
          · simp at hp
          · split at hp
            · simp at hp
            · simp only [next_session_type_coding, List.tail_cons] at hp
              exact run_loop_phases_coding cfg rest (i + 1) (c + 1) p hp
      | error =>
          rw [run_loop_error] at hp
          split at hp
          · simp at hp
          · split at hp
            · simp at hp
            · simp only [next_session_type_coding, List.tail_cons] at hp
              exact run_loop_phases_coding cfg rest (i + 1) (c + 1) p hp

theorem max_reached_iff (N i : Nat) :
    max_iterations_reached ⟨some N, none⟩ i = true ↔ (N ≠ 0 ∧ N < i) := by
  simp [max_iterations_reached]

theorem run_loop_max_fires (N : Nat) (outcomes : List Status) :
    ∀ i c st, 0 < N → i ≤ N → N - i ≤ outcomes.length →
      (run_loop ⟨some N, none⟩ outcomes i c st).reason = .maxIterations ∧
      (run_loop ⟨some N, none⟩ outcomes i c st).phases.length = N - i ∧
      (run_loop ⟨some N, none⟩ outcomes i c st).iteration = N + 1 := by
  induction outcomes with
  | nil =>
      intro i c st hN hi hlen
      simp only [List.length_nil, Nat.le_zero] at hlen
      have hieq : i = N := by omega
      rw [run_loop_nil, if_pos ((max_reached_iff N (i + 1)).mpr ⟨by omega, by omega⟩)]
      refine ⟨rfl, by simp; omega, by simp; omega⟩
  | cons o rest ih =>
      intro i c st hN hi hlen
      by_cases hiN : i = N
      · have hfire := (max_reached_iff N (i + 1)).mpr ⟨by omega, by omega⟩
        cases o with
        | cont =>
            rw [run_loop_cont, if_pos hfire]
            refine ⟨rfl, by simp; omega, by simp; omega⟩
        | idleTimeout =>
            rw [run_loop_idle, if_pos hfire]
            refine ⟨rfl, by simp; omega, by simp; omega⟩
        | error =>
            rw [run_loop_error, if_pos hfire]
            refine ⟨rfl, by simp; omega, by simp; omega⟩
      · have hlt : i < N := by omega
        have hnofire : ¬(max_iterations_reached ⟨some N, none⟩ (i + 1) = true) := by
          rw [max_reached_iff]
          omega
        rw [List.length_cons] at hlen
        cases o with
        | cont =>
            rw [run_loop_cont, if_neg hnofire]
            have h := ih (i + 1) 0 (next_session_type st) hN (by omega) (by omega)
            refine ⟨h.1, ?_, h.2.2⟩
            simp only [List.length_cons, h.2.1]
            omega
        | idleTimeout =>
            rw [run_loop_idle, if_neg hnofire]
            simp only [failure_threshold_reached, Bool.false_eq_true, if_false]
            have h := ih (i + 1) (c + 1) (next_session_type st) hN (by omega) (by omega)
            refine ⟨h.1, ?_, h.2.2⟩
            simp only [List.length_cons, h.2.1]
            omega
        | error =>
            rw [run_loop_error, if_neg hnofire]
            simp only [failure_threshold_reached, Bool.false_eq_true, if_false]
            have h := ih (i + 1) (c + 1) (next_session_type st) hN (by omega) (by omega)
            refine ⟨h.1, ?_, h.2.2⟩
            simp only [List.length_cons, h.2.1]
            omega

-- Claim theorems

/-- C1: in the orchestration loop, `consecutive_failures` is 0 immediately
after every Continue outcome, exactly one more than its previous value after
every IdleTimeout or Error outcome, and is modified nowhere else: the trace
of its values after each evaluated outcome is exactly the scan of the
outcome list by that rule (and, under any configuration, the prefix of that
scan that the loop lives to produce).  The outcome sequence
[Continue, Error, Error, Continue, Error] yields the trace [0, 1, 2, 0, 1]. -/
theorem consecutive_failures_follow_outcome_rule :
    (∀ (outcomes : List Status) (i c : Nat) (st : SessionType),
        (run_loop ⟨none, none⟩ outcomes i c st).failures_trace = failures_scan c outcomes) ∧
    (∀ (cfg : LoopConfig) (outcomes : List Status) (i c : Nat) (st : SessionType),
        (run_loop cfg outcomes i c st).failures_trace
          = (failures_scan c outcomes).take
              (run_loop cfg outcomes i c st).failures_trace.length) ∧
    (run_loop ⟨none, none⟩ [.cont, .error, .error, .cont, .error] 0 0 .coding).failures_trace
      = [0, 1, 2, 0, 1] :=
  ⟨fun outcomes i c st => run_loop_none_none_trace outcomes i c st,
   fun cfg outcomes i c st => run_loop_trace_follows_scan cfg outcomes i c st,
   by decide⟩

/-- C2: with an idle deadline `T` configured, a source whose items all
arrive strictly within the deadline is delivered in full and in order;
if it then ends normally (within the deadline) the guard ends normally,
and if it instead stalls past the deadline — forever, or before a later
item — the guard fails with an IdleTimeout reporting the configured `T`
(not the cumulative elapsed time). -/
theorem guard_delivers_fast_items_and_reports_deadline (α : Type) :
    (∀ (T : Nat) (events : List (Nat × α)) (e : Nat),
        (∀ p ∈ events, p.1 < T) → e < T →
        async_iter_with_timeout (some T) ⟨events, .normal e⟩
          = .ended (events.map Prod.snd)) ∧
    (∀ (T : Nat) (events : List (Nat × α)),
        (∀ p ∈ events, p.1 < T) →
        async_iter_with_timeout (some T) ⟨events, .stallForever⟩
          = .idleTimeout (events.map Prod.snd) T) ∧
    (∀ (T : Nat) (front : List (Nat × α)) (d : Nat) (a : α) (rest : List (Nat × α))
        (ending : SourceEnd),
        (∀ p ∈ front, p.1 < T) → T ≤ d →
        async_iter_with_timeout (some T) ⟨front ++ (d, a) :: rest, ending⟩
          = .idleTimeout (front.map Prod.snd) T) := by
  refine ⟨?_, ?_, ?_⟩
  · intro T events e hfast he
    show guardTimed T [] events (.normal e) = _
    rw [guardTimed_all_fast T events (.normal e) hfast []]
    simp [he]
  · intro T events hfast
    show guardTimed T [] events .stallForever = _
    rw [guardTimed_all_fast T events .stallForever hfast []]
    simp
  · intro T front d a rest ending hfast hd
    show guardTimed T [] (front ++ (d, a) :: rest) ending = _
    rw [guardTimed_stall_mid T front d a rest ending hfast hd []]
    simp

/-- Witness for C2 at concrete inputs: two fast items then a prompt end;
two fast items then an eternal stall; and a stall before a third item
where the cumulative elapsed time (4 + 5 + 10 = 19) differs from the
reported deadline 10. -/
theorem guard_delivers_fast_items_witness :
    async_iter_with_timeout (some 10) ⟨[(3, "a"), (4, "b")], .normal 2⟩
      = .ended ["a", "b"] ∧
    async_iter_with_timeout (some 10) ⟨[(3, "a"), (4, "b")], .stallForever⟩
      = .idleTimeout ["a", "b"] 10 ∧
    async_iter_with_timeout (some 10) ⟨[(4, "a"), (5, "b")] ++ (11, "c") :: [], .normal 1⟩
      = .idleTimeout ["a", "b"] 10 :=
  ⟨(guard_delivers_fast_items_and_reports_deadline String).1 10 [(3, "a"), (4, "b")] 2
      (by decide) (by decide),
   (guard_delivers_fast_items_and_reports_deadline String).2.1 10 [(3, "a"), (4, "b")]
      (by decide),
   (guard_delivers_fast_items_and_reports_deadline String).2.2 10 [(4, "a"), (5, "b")] 11 "c"
      [] (.normal 1) (by decide) (by decide)⟩

/-- C3: with a consecutive-failure threshold `t` configured, the loop
terminates with reason FailureThreshold exactly when the t-th consecutive
IdleTimeout/Error outcome is evaluated: a script opening with `t` straight
failures terminates with that reason after exactly `t` sessions, and in
general the FailureThreshold exit occurs iff the consecutive-failure
counter somewhere reaches `t` (a Continue before the t-th failure resets
the count to 0 and so prevents it).  With the threshold absent the loop
never exits with FailureThreshold — not even after 100 straight failures. -/
theorem failure_threshold_exit_characterization :
    (∀ (t : Nat) (outcomes : List Status) (st : SessionType),
        0 < t → (∀ o ∈ outcomes.take t, o ≠ .cont) → t ≤ outcomes.length →
        (run_loop ⟨none, some t⟩ outcomes 0 0 st).reason = .failureThreshold ∧
        (run_loop ⟨none, some t⟩ outcomes 0 0 st).phases.length = t) ∧
    (∀ (t : Nat) (outcomes : List Status) (i c : Nat) (st : SessionType), c < t →
        ((run_loop ⟨none, some t⟩ outcomes i c st).reason = .failureThreshold ↔
          ∃ x ∈ failures_scan c outcomes, t ≤ x)) ∧
    (∀ (mi : Option Nat) (outcomes : List Status) (i c : Nat) (st : SessionType),
        (run_loop ⟨mi, none⟩ outcomes i c st).reason ≠ .failureThreshold) ∧
    (run_loop ⟨none, none⟩ (List.replicate 100 .error) 0 0 .coding).reason = .scriptEnded ∧
    (run_loop ⟨none, some 3⟩ [.error, .idleTimeout, .error] 0 0 .coding).reason
      = .failureThreshold ∧
    (run_loop ⟨none, some 3⟩ [.error, .idleTimeout, .error] 0 0 .coding).phases.length = 3 ∧
    (run_loop ⟨none, some 3⟩ [.error, .error, .cont, .error, .error, .cont] 0 0 .coding).reason
      = .scriptEnded := by
  refine ⟨?_, ?_, ?_, by decide, by decide, by decide, by decide⟩
  · intro t outcomes st ht hfail hlen
    have h := run_loop_threshold_fires t outcomes 0 0 st (by omega)
      (by simpa using hfail) (by simpa using hlen)
    simpa using h
  · intro t outcomes i c st hc
    exact run_loop_threshold_iff t outcomes i c st hc
  · intro mi outcomes i c st
    exact run_loop_no_threshold mi outcomes i c st

/-- Witness for C3 at concrete inputs: threshold 3 with the script
[Error, IdleTimeout, Error] fires after exactly 3 sessions, and the
general characterization evaluated on [Error, Continue, Error]. -/
theorem failure_threshold_exit_witness :
    ((run_loop ⟨none, some 3⟩ [.error, .idleTimeout, .error] 0 0 .coding).reason
        = .failureThreshold ∧
      (run_loop ⟨none, some 3⟩ [.error, .idleTimeout, .error] 0 0 .coding).phases.length = 3) ∧
    ((run_loop ⟨none, some 2⟩ [.error, .cont, .error] 0 0 .coding).reason
        = .failureThreshold ↔ ∃ x ∈ failures_scan 0 [.error, .cont, .error], 2 ≤ x) :=
  ⟨failure_threshold_exit_characterization.1 3 [.error, .idleTimeout, .error] .coding
      (by decide) (by decide) (by decide),
   failure_threshold_exit_characterization.2.1 2 [.error, .cont, .error] 0 0 .coding
      (by decide)⟩

/-- C4: every terminating invocation of `run_agent_session` returns exactly
one outcome: "continue" with the accumulated assistant text on normal
completion of the guarded stream, "idle_timeout" (never reclassified as
"error") with the guard's message on a guard timeout, and "error" carrying
the failure's message when submitting the prompt fails or the source fails
while being consumed; the only non-returning case is a diverging guarded
stream (timeout disabled, source stalled), which yields no outcome at all. -/
theorem session_runner_outcome_classification :
    (∀ (t : Option Nat) (src : TimedSource Msg) (m : String),
        run_agent_session (.failed m) t src = some ("error", m)) ∧
    (∀ (t : Option Nat) (src : TimedSource Msg) (msgs : List Msg),
        async_iter_with_timeout t src = .ended msgs →
        run_agent_session .ok t src = some ("continue", accumulated_text msgs)) ∧
    (∀ (t : Option Nat) (src : TimedSource Msg) (msgs : List Msg) (T : Nat),
        async_iter_with_timeout t src = .idleTimeout msgs T →
        run_agent_session .ok t src = some ("idle_timeout", idle_timeout_message T)) ∧
    (∀ (t : Option Nat) (src : TimedSource Msg) (msgs : List Msg) (m : String),
        async_iter_with_timeout t src = .sourceError msgs m →
        run_agent_session .ok t src = some ("error", m)) ∧
    (∀ (submit : SubmitResult) (t : Option Nat) (src : TimedSource Msg),
        run_agent_session submit t src = none →
        submit = .ok ∧ ∃ msgs, async_iter_with_timeout t src = .diverges msgs) := by
  refine ⟨fun t src m => rfl, ?_, ?_, ?_, ?_⟩
  · intro t src msgs h
    unfold run_agent_session
    rw [h]
    show some ("continue", response_text_of msgs) = _
    rw [response_text_eq_accumulated]
  · intro t src msgs T h
    unfold run_agent_session
    rw [h]
  · intro t src msgs m h
    unfold run_agent_session
    rw [h]
  · intro submit t src h
    cases submit with
    | failed m => exact absurd h (by simp [run_agent_session])
    | ok =>
        refine ⟨rfl, ?_⟩
        unfold run_agent_session at h
        cases hg : async_iter_with_timeout t src with
        | ended msgs => rw [hg] at h; simp at h
        | idleTimeout msgs T => rw [hg] at h; simp at h
        | diverges msgs => exact ⟨msgs, rfl⟩
        | sourceError msgs m => rw [hg] at h; simp at h

/-- Witness for C4 at concrete inputs: a normal two-message stream, a
timed-out stream, a failing source, a failed submit, and a diverging
unguarded stream. -/
theorem session_runner_outcome_witness :
    run_agent_session (.failed "boom") (some 10) ⟨[], .normal 1⟩
      = some ("error", "boom") ∧
    run_agent_session .ok (some 10)
        ⟨[(1, .assistantMessage [.textBlock "hi ", .toolUseBlock "Bash" "ls"]),
          (2, .assistantMessage [.textBlock "there"])], .normal 1⟩
      = some ("continue", accumulated_text
          [.assistantMessage [.textBlock "hi ", .toolUseBlock "Bash" "ls"],
           .assistantMessage [.textBlock "there"]]) ∧
    run_agent_session .ok (some 10) ⟨[(1, .otherMessage)], .stallForever⟩
      = some ("idle_timeout", idle_timeout_message 10) ∧
    run_agent_session .ok (some 10) ⟨[], .raisesError 2 "conn reset"⟩
      = some ("error", "conn reset") ∧
    (SubmitResult.ok = SubmitResult.ok ∧
      ∃ msgs, async_iter_with_timeout none (⟨[], .stallForever⟩ : TimedSource Msg)
        = .diverges msgs) :=
  ⟨session_runner_outcome_classification.1 (some 10) ⟨[], .normal 1⟩ "boom",
   session_runner_outcome_classification.2.1 (some 10) _ _ (by decide),
   session_runner_outcome_classification.2.2.1 (some 10) _ [.otherMessage] 10 (by decide),
   session_runner_outcome_classification.2.2.2.1 (some 10) _ [] "conn reset" (by decide),
   session_runner_outcome_classification.2.2.2.2 .ok none ⟨[], .stallForever⟩ (by decide)⟩

/-- C5: with the idle deadline absent, the guarded stream is extensionally
equal to the raw source stream — identical items and identical termination,
including waiting forever on a stalled source — and it never raises an
IdleTimeout, regardless of how long the source stalls. -/
theorem guard_without_deadline_is_raw_source :
    (∀ (α : Type) (src : TimedSource α),
        async_iter_with_timeout none src = rawSourceRun src) ∧
    (∀ (α : Type) (src : TimedSource α) (items : List α) (R : Nat),
        async_iter_with_timeout none src ≠ .idleTimeout items R) := by
  constructor
  · intro α src
    cases src with
    | mk events ending => cases ending <;> rfl
  · intro α src items R
    exact async_iter_none_no_idle src items R

/-- Witness for C5 at a concrete input: a source that stalls 5000 units
between items is passed through unchanged and raises no timeout. -/
theorem guard_without_deadline_witness :
    async_iter_with_timeout none ⟨[(1000, "a"), (5000, "b")], .stallForever⟩
      = rawSourceRun ⟨[(1000, "a"), (5000, "b")], .stallForever⟩ ∧
    async_iter_with_timeout none ⟨[(1000, "a"), (5000, "b")], .stallForever⟩
      ≠ .idleTimeout ["a", "b"] 180 :=
  ⟨guard_without_deadline_is_raw_source.1 String ⟨[(1000, "a"), (5000, "b")], .stallForever⟩,
   guard_without_deadline_is_raw_source.2 String ⟨[(1000, "a"), (5000, "b")], .stallForever⟩
      ["a", "b"] 180⟩

/-- C6: a configured idle-timeout of zero disables the timeout exactly like
an absent one: the CLI maps the value 0 to `None` before it reaches the
guard, so the stream is consumed with no idle deadline and IdleTimeout is
never raised. -/
theorem zero_idle_timeout_disables_guard :
    effective_idle_timeout 0 = none ∧
    (∀ (α : Type) (src : TimedSource α),
        async_iter_with_timeout (effective_idle_timeout 0) src
          = async_iter_with_timeout none src) ∧
    (∀ (α : Type) (src : TimedSource α) (items : List α) (R : Nat),
        async_iter_with_timeout (effective_idle_timeout 0) src ≠ .idleTimeout items R) := by
  refine ⟨rfl, fun α src => rfl, ?_⟩
  intro α src items R
  exact async_iter_none_no_idle src items R

/-- Witness for C6 at a concrete input: with the CLI value 0, a source
stalling 100000 units raises no timeout. -/
theorem zero_idle_timeout_witness :
    async_iter_with_timeout (effective_idle_timeout 0)
        (⟨[(100000, "x")], .stallForever⟩ : TimedSource String)
      = async_iter_with_timeout none ⟨[(100000, "x")], .stallForever⟩ ∧
    async_iter_with_timeout (effective_idle_timeout 0)
        (⟨[(100000, "x")], .stallForever⟩ : TimedSource String)
      ≠ .idleTimeout ["x"] 180 :=
  ⟨zero_idle_timeout_disables_guard.2.1 String ⟨[(100000, "x")], .stallForever⟩,
   zero_idle_timeout_disables_guard.2.2 String ⟨[(100000, "x")], .stallForever⟩ ["x"] 180⟩

/-- C7: whatever phase the loop starts in (Initializer or Onboarding
included) and whatever the first session's outcome, every session after
the first runs in phase Coding: the phase list of any run has only Coding
past its first element, and a run of three sessions starting in
Initializer (or Onboarding) uses [start, Coding, Coding]. -/
theorem transient_phases_rewritten_to_coding :
    (∀ (cfg : LoopConfig) (outcomes : List Status) (i c : Nat) (st : SessionType)
        (p : SessionType),
        p ∈ (run_loop cfg outcomes i c st).phases.tail → p = .coding) ∧
    (run_loop ⟨none, none⟩ [.error, .cont, .idleTimeout] 0 0 .initializer).phases
      = [.initializer, .coding, .coding] ∧
    (run_loop ⟨none, none⟩ [.cont, .error, .error] 0 0 .onboarding).phases
      = [.onboarding, .coding, .coding] :=
  ⟨fun cfg outcomes i c st p hp => run_loop_phases_tail cfg outcomes i c st p hp,
   by decide, by decide⟩

/-- Witness for C7 at a concrete input: in a two-session run starting in
Initializer with a failing first session, the second session's phase is
Coding. -/
theorem transient_phases_witness :
    SessionType.coding
        ∈ (run_loop ⟨none, none⟩ [.error, .error] 0 0 .initializer).phases.tail ∧
    SessionType.coding = SessionType.coding :=
  ⟨by decide,
   transient_phases_rewritten_to_coding.1 ⟨none, none⟩ [.error, .error] 0 0 .initializer
      .coding (by decide)⟩

/-- C8: the one-shot phase selection is the pure function of the two
startup booleans (hasPriorProgress = the feature-list ledger exists,
hasExistingContent) given by the table (true, _) → Coding,
(false, true) → Onboarding, (false, false) → Initializer. -/
theorem phase_selection_matches_table :
    ∀ (hasPriorProgress hasExistingContent : Bool),
      determine_session_type hasPriorProgress hasExistingContent
        = phase_selector_table hasPriorProgress hasExistingContent := by
  decide

/-- C9: with a configured max-iteration count N > 0 and at least N scripted
outcomes, exactly N sessions run (iterations 1 through N) and the loop then
terminates with reason MaxIterations at the top of cycle N + 1, before any
further session; with the count absent the loop never exits for
MaxIterations.  Concretely, with max-iterations 5 and ten Continue
outcomes available, five sessions run and the loop stops at iteration 6. -/
theorem max_iterations_stops_before_excess_session :
    (∀ (N : Nat) (outcomes : List Status) (st : SessionType),
        0 < N → N ≤ outcomes.length →
        (run_loop ⟨some N, none⟩ outcomes 0 0 st).reason = .maxIterations ∧
        (run_loop ⟨some N, none⟩ outcomes 0 0 st).phases.length = N ∧
        (run_loop ⟨some N, none⟩ outcomes 0 0 st).iteration = N + 1) ∧
    (∀ (q : Option Nat) (outcomes : List Status) (i c : Nat) (st : SessionType),
        (run_loop ⟨none, q⟩ outcomes i c st).reason ≠ .maxIterations) ∧
    (run_loop ⟨some 5, none⟩ (List.replicate 10 .cont) 0 0 .coding).reason
      = .maxIterations ∧
    (run_loop ⟨some 5, none⟩ (List.replicate 10 .cont) 0 0 .coding).phases.length = 5 ∧
    (run_loop ⟨some 5, none⟩ (List.replicate 10 .cont) 0 0 .coding).iteration = 6 := by
  refine ⟨?_, ?_, by decide, by decide, by decide⟩
  · intro N outcomes st hN hlen
    exact run_loop_max_fires N outcomes 0 0 st hN (by omega) (by omega)
  · intro q outcomes i c st
    exact run_loop_no_max q outcomes i c st

/-- Witness for C9 at a concrete input: max-iterations 2 over a script of
three outcomes runs exactly 2 sessions and stops at iteration 3. -/
theorem max_iterations_stops_witness :
    (run_loop ⟨some 2, none⟩ [.cont, .error, .cont] 0 0 .coding).reason = .maxIterations ∧
    (run_loop ⟨some 2, none⟩ [.cont, .error, .cont] 0 0 .coding).phases.length = 2 ∧
    (run_loop ⟨some 2, none⟩ [.cont, .error, .cont] 0 0 .coding).iteration = 2 + 1 :=
  max_iterations_stops_before_excess_session.1 2 [.cont, .error, .cont] .coding
    (by decide) (by decide)

/-- C10: the existing-content probe returns false for a missing project
directory, and for an existing one it returns true iff some entry name
neither starts with '.' nor belongs to the fixed ignored set; in
particular a directory whose only entry is .git is treated as fresh. -/
theorem existing_codebase_probe_characterization :
    has_existing_codebase none = false ∧
    (∀ entries : List String,
        has_existing_codebase (some entries) = true ↔
          ∃ n ∈ entries, starts_with_dot n = false ∧ n ∉ ignored_patterns) ∧
    has_existing_codebase (some [".git"]) = false := by
  refine ⟨rfl, ?_, by decide⟩
  intro entries
  induction entries with
  | nil => simp [has_existing_codebase, scan_for_existing_code]
  | cons item rest ih =>
      simp only [has_existing_codebase] at ih ⊢
      rw [scan_for_existing_code]
      by_cases h1 : (starts_with_dot item && item != ".git") = true
      · rw [if_pos h1, ih]
        have hdot : starts_with_dot item = true := by
          exact (Bool.and_eq_true _ _ |>.mp h1).1
        constructor
        · rintro ⟨n, hn, hgood⟩
          exact ⟨n, List.mem_cons_of_mem _ hn, hgood⟩
        · rintro ⟨n, hn, hgood⟩
          rcases List.mem_cons.mp hn with heq | hmem
          · subst heq
            rw [hdot] at hgood
            exact absurd hgood.1 (by simp)
          · exact ⟨n, hmem, hgood⟩
      · rw [if_neg h1]
        by_cases h2 : item ∈ ignored_patterns
        · rw [if_pos h2, ih]
          constructor
          · rintro ⟨n, hn, hgood⟩
            exact ⟨n, List.mem_cons_of_mem _ hn, hgood⟩
          · rintro ⟨n, hn, hgood⟩
            rcases List.mem_cons.mp hn with heq | hmem
            · subst heq
              exact absurd h2 hgood.2
            · exact ⟨n, hmem, hgood⟩
        · rw [if_neg h2]
          simp only [true_iff]
          refine ⟨item, List.mem_cons_self item rest, ?_, h2⟩
          by_cases hdot : starts_with_dot item = true
          · by_cases hgit : item = ".git"
            · exact absurd (hgit ▸ h2) (by simp [ignored_patterns])
            · exact absurd (by simp [hdot, hgit]) h1
          · simpa using hdot

/-- Witness for C10 at concrete inputs: a directory holding only .git and
node_modules is fresh, one also holding src is an existing codebase. -/
theorem existing_codebase_probe_witness :
    has_existing_codebase (some [".git", "node_modules"]) = false ∧
    has_existing_codebase (some [".git", "src"]) = true :=
  ⟨by decide,
   (existing_codebase_probe_characterization.2.1 [".git", "src"]).mpr
      ⟨"src", by decide, by decide, by decide⟩⟩
